import Mathlib

/- Verification of the Build Run & Log Pipeline of the build-logger editor
   extension.  The definitions below are shallow embeddings of the functions
   in src/extension.ts and, where noted, of the variant implementation in
   src/extension.js (the variant carries the command deny-list check, the
   output debounce timer and the clear-logs operation, which the .ts
   variant does not have).  External effects (configuration lookups, the
   filesystem, child-process events, JSON.parse) are passed in as explicit
   arguments or modelled by small state machines. -/

namespace BuildLogger

/-! ### Constants (src/extension.ts lines 9-10) -/

def MAX_LOG_ENTRIES : Nat := 1000

def MAX_ERROR_LENGTH : Nat := 5000

/-! ### JavaScript string primitives

JavaScript strings are modelled as Lean `String`s (one `Char` per UTF-16
unit of the original; the programs under study only compare, trim, slice
and concatenate, for which this is faithful). -/

/-- Whitespace stripped by JavaScript `String.prototype.trim` (the common
ASCII subset; the build-logger never manipulates exotic whitespace). -/
def jsWhitespace (c : Char) : Bool :=
  c == ' ' || c == '\t' || c == '\n' || c == '\r' || c == '\x0B' || c == '\x0C'

def jsTrimList (l : List Char) : List Char :=
  ((l.dropWhile jsWhitespace).reverse.dropWhile jsWhitespace).reverse

/-- JavaScript `s.trim()`. -/
def jsTrim (s : String) : String := ⟨jsTrimList s.toList⟩

def isPre : List Char → List Char → Bool
  | [], _ => true
  | _ :: _, [] => false
  | a :: as, b :: bs => a == b && isPre as bs

def listIncludes (pat : List Char) : List Char → Bool
  | [] => pat.isEmpty
  | c :: t => isPre pat (c :: t) || listIncludes pat t

/-- JavaScript `hay.includes(pat)`. -/
def strIncludes (hay pat : String) : Bool := listIncludes pat.toList hay.toList

/-- JavaScript `a || b` for two strings (the empty string is falsy). -/
def jsOr (a b : String) : String := if a = "" then b else a

/-- JavaScript `v || d` where `v` may be `undefined` (`none`) or a string. -/
def orFalsy (v : Option String) (d : String) : String :=
  match v with
  | none => d
  | some s => if s = "" then d else s

/-- JavaScript `s.substring(0, k)` (also the "first k characters" of a
partially flushed write). -/
def strTake (s : String) (k : Nat) : String := ⟨s.toList.take k⟩

/-- src/extension.ts lines 698-702: cut a string at `maxLength` characters
and append the fixed truncation marker. -/
def truncateString (str : String) (maxLength : Nat) : String :=
  if str.length > maxLength then strTake str maxLength ++ "... [truncated]" else str

/-! ### Command Resolver -/

inductive ResolveError where
  | noRecognizedProject
  | noBuildSystem
  | emptyCommand
  | invalidCommand
  | scriptNotFound (script : String)
deriving DecidableEq

/-- State of `package.json` as `getValidatedBuildCommand` observes it:
missing, present but failing `JSON.parse`, or parsed with the given set of
script names. -/
inductive PkgJson where
  | absent
  | unparseable
  | scripts (names : List String)
deriving DecidableEq

/-- Filesystem facts consulted by the .ts resolver. -/
structure TsWorkspace where
  pkg : PkgJson
  pomExists : Bool
  gradleExists : Bool
  makefileExists : Bool
deriving DecidableEq

/-- Split a character list on every occurrence of `sep` (JavaScript
`split`: empty fields are kept). -/
def splitOnChar (sep : Char) : List Char → List (List Char)
  | [] => [[]]
  | c :: t =>
    let rest := splitOnChar sep t
    if c == sep then [] :: rest
    else
      match rest with
      | [] => [[c]]
      | h :: t2 => (c :: h) :: t2

/-- JavaScript `s.split(" ").pop()`. -/
def lastSpaceToken (s : String) : String :=
  ⟨(splitOnChar ' ' s.toList).getLastD []⟩

/-- src/extension.ts lines 612-696 (`getValidatedBuildCommand`): take the
configured command if non-blank, otherwise auto-detect from project marker
files; then, for npm/yarn/pnpm commands, check the named script exists in
`package.json`.  Note: the "No scripts found in package.json" error thrown
inside the validation `try` block does not contain the substring
"not found", so the surrounding `catch` swallows it (only messages
containing "not found" are re-thrown); and no deny-list check is performed
in this variant. -/
def getValidatedBuildCommand (fs : TsWorkspace) (configCommand : String) :
    Except ResolveError String :=
  let detected : Except ResolveError String :=
    if jsTrim configCommand = "" then
      match fs.pkg with
      | .scripts s =>
          .ok (if s.contains "build" then "npm run build"
            else if s.contains "compile" then "npm run compile"
            else if s.contains "dist" then "npm run dist"
            else if s.contains "dev" then "npm run dev"
            else "npm install")
      | .unparseable => .ok "npm install"
      | .absent =>
          if fs.pomExists then .ok "mvn compile"
          else if fs.gradleExists then .ok "gradle build"
          else if fs.makefileExists then .ok "make"
          else .error .noRecognizedProject
    else .ok configCommand
  match detected with
  | .error e => .error e
  | .ok buildCommand =>
    if strIncludes buildCommand "npm run" || strIncludes buildCommand "yarn"
        || strIncludes buildCommand "pnpm" then
      match fs.pkg with
      | .scripts scripts =>
        let scriptName := lastSpaceToken buildCommand
        if scriptName ≠ "" ∧ ¬ scripts.contains scriptName then
          if scripts.isEmpty then .ok buildCommand
          else .error (.scriptNotFound scriptName)
        else .ok buildCommand
      | _ => .ok buildCommand
    else .ok buildCommand

/-- Filesystem facts consulted by the .js resolver. -/
structure JsWorkspace where
  packageJsonExists : Bool
  pomExists : Bool
  gradleExists : Bool
deriving DecidableEq

/-- src/extension.js line 464: the injection deny-list. -/
def dangerousPatterns : List String := [";", "&&", "||", "`", "$("]

def hasDangerous (s : String) : Bool := dangerousPatterns.any (fun p => strIncludes s p)

/-- src/extension.js lines 442-468 (`getValidatedBuildCommand`, variant):
take the configured command if non-blank, otherwise auto-detect; trim;
fail on an empty command; fail on any deny-list substring. -/
def getValidatedBuildCommandJs (fs : JsWorkspace) (isWindows : Bool)
    (configCommand : String) : Except ResolveError String :=
  let detected : Except ResolveError String :=
    if jsTrim configCommand = "" then
      if fs.packageJsonExists then
        .ok (if isWindows then "npm.cmd run build" else "npm run build")
      else if fs.pomExists then .ok "mvn clean install"
      else if fs.gradleExists then
        .ok (if isWindows then "gradlew.bat build" else "./gradlew build")
      else .error .noBuildSystem
    else .ok configCommand
  match detected with
  | .error e => .error e
  | .ok b0 =>
    let buildCommand := jsTrim b0
    if buildCommand = "" then .error .emptyCommand
    else if hasDangerous buildCommand then .error .invalidCommand
    else .ok buildCommand

/-! ### Log Store: in-memory update -/

/-- Pure core of `saveLog` (src/extension.ts lines 789-794): push the new
entry, then `slice` away the front when the cap is exceeded. -/
def saveLogUpdate {α : Type} (logs : List α) (entry : α) : List α :=
  let l := logs ++ [entry]
  if l.length > MAX_LOG_ENTRIES then l.drop (l.length - MAX_LOG_ENTRIES) else l

/-- The most recent `MAX_LOG_ENTRIES` elements of a list, in order. -/
def takeRightCap {α : Type} (l : List α) : List α :=
  l.drop (l.length - MAX_LOG_ENTRIES)

/-! ### Failure records -/

/-- The log entry built by the exit handler (src/extension.ts lines
469-483). -/
structure LogEntry where
  timestamp : String
  error : String
  branch : String
  developer : String
  exitCode : Option Int
  command : String
  workingDirectory : String
  buildTime : Int
  duration : Int
  repoUrl : String
deriving DecidableEq

/-- The entry actually written by `saveLog` (src/extension.ts lines
780-787): the incoming entry spread together with three added metadata
fields. -/
structure EnhancedEntry extends LogEntry where
  extensionVersion : String
  vscodeVersion : String
  platform : String
deriving DecidableEq

/-- src/extension.ts lines 780-787 (`enhancedEntry`): `extensionVersion`
falls back to "unknown" when the extension lookup yields no version. -/
def enhanceEntry (e : LogEntry) (extVer : Option String)
    (vscodeVer platformName : String) : EnhancedEntry :=
  { toLogEntry := e
    extensionVersion := orFalsy extVer "unknown"
    vscodeVersion := vscodeVer
    platform := platformName }

/-! ### Context Collector -/

/-- src/extension.ts lines 704-716 (`getGitBranch`): the result of
`executeCommand "git rev-parse --abbrev-ref HEAD"` is passed in as an
`Except` (`.error` = the promise rejected). -/
def getGitBranch (execRes : Except String String) : String :=
  match execRes with
  | .error _ => "unknown"
  | .ok out => jsOr (jsTrim out) "unknown"

/-- The four environment variables consulted by `getDeveloperName`
(`none` = unset). -/
structure EnvVars where
  user : Option String
  username : Option String
  logname : Option String
  computername : Option String
deriving DecidableEq

/-- src/extension.ts lines 718-742 (`getDeveloperName`): git identity
first; if it is blank, the `||`-chain of environment variables; if the git
query rejects, the catch block returns the sentinel directly. -/
def getDeveloperName (execRes : Except String String) (env : EnvVars) : String :=
  match execRes with
  | .error _ => "Unknown Developer"
  | .ok gitName =>
    if jsTrim gitName ≠ "" then jsTrim gitName
    else
      orFalsy env.user (orFalsy env.username (orFalsy env.logname
        (orFalsy env.computername "Unknown Developer")))

/-! ### Process Supervisor: outcome classification -/

/-- The data in scope in the exit/error handlers of `runBuildProcess`. -/
structure RunContext where
  buildOutput : String
  errorOutput : String
  branchName : String
  developer : String
  repoUrl : String
  buildCommand : String
  workspacePath : String
  timestamp : String
  endTime : Int
  duration : Int
deriving DecidableEq

/-- The `logEntry` object literal of src/extension.ts lines 469-483. -/
def mkFailureLogEntry (ctx : RunContext) (code : Option Int) : LogEntry :=
  { timestamp := ctx.timestamp
    error := truncateString (jsOr (jsTrim ctx.buildOutput) (jsTrim ctx.errorOutput))
      MAX_ERROR_LENGTH
    branch := ctx.branchName
    developer := ctx.developer
    exitCode := code
    command := ctx.buildCommand
    workingDirectory := ctx.workspacePath
    buildTime := ctx.endTime
    duration := ctx.duration
    repoUrl := ctx.repoUrl }

/-- The terminal event of one build subprocess: `exit(code)` (with `none`
for a null code) or `error(err)` (the process could not be spawned). -/
inductive ExitEvent where
  | exited (code : Option Int)
  | errored (message : String)
deriving DecidableEq

inductive BuildResult where
  | success (durationMs : Int)
  | failed (entry : LogEntry)
  | spawnError (message : String)
deriving DecidableEq

/-- src/extension.ts lines 423-520: the exit handler resolves success on
code 0 and otherwise builds a failure entry carrying that exit code; the
error handler produces a user-facing diagnostic and no entry. -/
def handleProcessEvent (ev : ExitEvent) (ctx : RunContext) : BuildResult :=
  match ev with
  | .errored msg =>
      .spawnError (if strIncludes msg "ENOENT" then
          "Command not found: " ++ ctx.buildCommand ++
            ". Make sure npm is installed and in your PATH."
        else "Build process error: " ++ msg)
  | .exited code =>
      if code = some 0 then .success ctx.duration
      else .failed (mkFailureLogEntry ctx code)

/-- Which entry a build result hands to `saveLog`: only a failure is
persisted. -/
def persistedEntry : BuildResult → Option LogEntry
  | .failed e => some e
  | _ => none

/-- The context as enriched by the `Promise.all` of the logging block
(src/extension.ts lines 463-467): the branch and developer queries run
with `.catch` fallbacks. -/
def enrichContext (ctx : RunContext)
    (branchExec devExec : Except String String) (env : EnvVars) : RunContext :=
  { ctx with branchName := getGitBranch branchExec
             developer := getDeveloperName devExec env }

/-- The logging block of the exit handler (src/extension.ts lines
461-491): branch and developer are collected with fallbacks, the entry is
built and handed to `saveLog`. -/
def runFailureLogging (logs : List EnhancedEntry)
    (branchExec devExec : Except String String) (env : EnvVars)
    (ctx : RunContext) (code : Option Int)
    (extVer : Option String) (vscodeVer platformName : String) :
    List EnhancedEntry :=
  let entry := mkFailureLogEntry (enrichContext ctx branchExec devExec env) code
  saveLogUpdate logs (enhanceEntry entry extVer vscodeVer platformName)

/-! ### Process Supervisor: output accumulation and debounce
(src/extension.js lines 336-369, `handleOutput`) -/

/-- An event seen by the output handler: a stdout/stderr chunk arriving,
or the 100ms debounce timer firing. -/
inductive OutEvent where
  | chunk (text : String)
  | timerFire
deriving DecidableEq

structure SupervisorState where
  buildOutput : String
  outputTimer : Option String
  displayed : List String
deriving DecidableEq

/-- src/extension.js line 349: strip characters outside printable ASCII,
keeping carriage returns and newlines, before display. -/
def sanitizeChunk (s : String) : String :=
  ⟨s.toList.filter (fun c =>
    (0x20 ≤ c.toNat && c.toNat ≤ 0x7E) || c == '\r' || c == '\n')⟩

/-- src/extension.js lines 339-367: every chunk is appended to
`buildOutput` unconditionally; the debounce timer is reset to flush (only)
the latest chunk to the live terminal when it fires. -/
def handleOutput (st : SupervisorState) : OutEvent → SupervisorState
  | .chunk text =>
      { st with buildOutput := st.buildOutput ++ text, outputTimer := some text }
  | .timerFire =>
      match st.outputTimer with
      | some text =>
          { st with outputTimer := none,
                    displayed := st.displayed ++ [sanitizeChunk text] }
      | none => st

def initialSupervisorState : SupervisorState := ⟨"", none, []⟩

/-- The chunk payloads of an event interleaving, in arrival order. -/
def chunkTexts (events : List OutEvent) : List String :=
  events.filterMap (fun e =>
    match e with
    | .chunk s => some s
    | .timerFire => none)

def concatChunks : List String → String
  | [] => ""
  | s :: rest => s ++ concatChunks rest

/-! ### Log Store: read phase (src/extension.ts lines 764-777 and 858-868)

`JSON.parse` is external; its behaviour on the file's text is passed in as
`parse` (`.error` = the call threw).  `Array.isArray` is the `JsValue`
constructor. -/

inductive JsValue (α : Type) where
  | arr (entries : List α)
  | nonArray
deriving DecidableEq

/-- The read phase of `saveLog` (src/extension.ts lines 764-777): missing
file, empty file, parse failure and non-array content all yield `[]`. -/
def saveLogReadPhase {α : Type} (file : Option String)
    (parse : String → Except String (JsValue α)) : List α :=
  match file with
  | none => []
  | some fileData =>
    if fileData = "" then []
    else
      match parse fileData with
      | .error _ => []
      | .ok (.arr xs) => xs
      | .ok .nonArray => []

inductive DashboardView (α : Type) where
  | dashboard (logs : List α)
  | errorView (title message : String)
deriving DecidableEq

/-- src/extension.ts lines 858-882 (`loadAndDisplayLogs`): same reading
code, but it is wrapped in a try/catch whose handler renders an error page
("Failed to load logs") instead of an empty dashboard, so a parse failure
does not yield the empty sequence here. -/
def loadAndDisplayLogs {α : Type} (file : Option String)
    (parse : String → Except String (JsValue α)) : DashboardView α :=
  match file with
  | none => .dashboard []
  | some fileData =>
    if fileData = "" then .dashboard []
    else
      match parse fileData with
      | .error e => .errorView "Failed to load logs" e
      | .ok (.arr xs) => .dashboard xs
      | .ok .nonArray => .dashboard []

/-! ### Log Store: on-disk writes and crash atomicity -/

/-- The two paths `saveLog` touches: the canonical log file and the `.tmp`
path beside it. -/
inductive LogPath where
  | canonical
  | temp
deriving DecidableEq

/-- Contents of the two paths (`none` = file absent). -/
structure LogFs where
  log : Option String
  tmp : Option String
deriving DecidableEq

inductive FsOp where
  | write (p : LogPath) (content : String)
  | rename (src dst : LogPath)
deriving DecidableEq

def readPath (fs : LogFs) : LogPath → Option String
  | .canonical => fs.log
  | .temp => fs.tmp

def writePath (fs : LogFs) (p : LogPath) (c : Option String) : LogFs :=
  match p with
  | .canonical => { fs with log := c }
  | .temp => { fs with tmp := c }

/-- A completed filesystem operation: `fs.promises.writeFile` replaces the
target's content, `fs.promises.rename` atomically moves it. -/
def applyOp (fs : LogFs) : FsOp → LogFs
  | .write p c => writePath fs p (some c)
  | .rename src dst =>
    match readPath fs src with
    | none => fs
    | some c => writePath (writePath fs src none) dst c

def runOps (fs : LogFs) (ops : List FsOp) : LogFs := ops.foldl applyOp fs

/-- The write sequence of `saveLog` (src/extension.ts lines 796-799):
write the serialized array to the temp path, then rename over the
canonical path. -/
def saveLogOps (content : String) : List FsOp :=
  [.write .temp content, .rename .temp .canonical]

/-- The write sequence of `clearLogs` (src/extension.js lines 863-874):
one direct `writeFile` of `JSON.stringify([], null, 2) = "[]"` to the
canonical path, with no temp file and no rename. -/
def clearLogsOps : List FsOp := [.write .canonical "[]"]

/-- A state reachable by crashing during an operation sequence: some
ops completed, plus optionally a partially flushed `writeFile` (any
character prefix of the intended content); `rename` is atomic, so it
contributes no partial state. -/
def CrashReachable (init : LogFs) (ops : List FsOp) (fs : LogFs) : Prop :=
  (∃ n, fs = runOps init (ops.take n)) ∨
  (∃ n p c k, ops[n]? = some (FsOp.write p c) ∧
      fs = applyOp (runOps init (ops.take n)) (FsOp.write p (strTake c k)))

/-! ### Concrete sample values used to evaluate the theorems -/

def sampleRunContext : RunContext :=
  { buildOutput := "error TS2304: Cannot find name"
    errorOutput := ""
    branchName := "main"
    developer := "dev"
    repoUrl := "https://example.invalid/repo.git"
    buildCommand := "npm run build"
    workspacePath := "/work"
    timestamp := "2026-01-01T00:00:00.000Z"
    endTime := 1000
    duration := 42 }

def sampleEnv : EnvVars := ⟨some "alice", none, none, none⟩

def sampleLogEntry : LogEntry :=
  { timestamp := "2026-01-01T00:00:00.000Z"
    error := "build failed"
    branch := "main"
    developer := "dev"
    exitCode := some 1
    command := "npm run build"
    workingDirectory := "/work"
    buildTime := 1000
    duration := 42
    repoUrl := "unknown" }

/-! ## Helper lemmas -/

theorem length_saveLogUpdate {α : Type} (l : List α) (e : α) :
    (saveLogUpdate l e).length ≤ MAX_LOG_ENTRIES := by
  simp only [saveLogUpdate]
  split
  · simp only [List.length_drop]
    omega
  · omega

theorem saveLogUpdate_eq_takeRightCap {α : Type} (l : List α) (e : α) :
    saveLogUpdate l e = takeRightCap (l ++ [e]) := by
  simp only [saveLogUpdate, takeRightCap]
  split
  · rfl
  · rename_i h
    have h0 : (l ++ [e]).length - MAX_LOG_ENTRIES = 0 := by omega
    rw [h0, List.drop_zero]

theorem takeRightCap_append_right {α : Type} (a b : List α)
    (h : MAX_LOG_ENTRIES ≤ b.length) :
    takeRightCap (a ++ b) = takeRightCap b := by
  simp only [takeRightCap, List.length_append]
  rw [List.drop_append_eq_append_drop]
  have h1 : a.length ≤ a.length + b.length - MAX_LOG_ENTRIES := by omega
  have h2 : a.length + b.length - MAX_LOG_ENTRIES - a.length
      = b.length - MAX_LOG_ENTRIES := by omega
  rw [List.drop_eq_nil_iff.mpr h1, h2, List.nil_append]

theorem takeRightCap_takeRightCap_append {α : Type} (a b : List α) :
    takeRightCap (takeRightCap a ++ b) = takeRightCap (a ++ b) := by
  rcases le_or_lt a.length MAX_LOG_ENTRIES with h | h
  · have h0 : a.length - MAX_LOG_ENTRIES = 0 := by omega
    have ha : takeRightCap a = a := by simp [takeRightCap, h0]
    rw [ha]
  · have hlen : MAX_LOG_ENTRIES ≤ (takeRightCap a ++ b).length := by
      simp only [takeRightCap, List.length_append, List.length_drop]
      omega
    calc takeRightCap (takeRightCap a ++ b)
        = takeRightCap (a.take (a.length - MAX_LOG_ENTRIES) ++ (takeRightCap a ++ b)) :=
          (takeRightCap_append_right _ _ hlen).symm
      _ = takeRightCap ((a.take (a.length - MAX_LOG_ENTRIES) ++ takeRightCap a) ++ b) := by
          rw [List.append_assoc]
      _ = takeRightCap (a ++ b) := by
          have hsplit : a.take (a.length - MAX_LOG_ENTRIES) ++ takeRightCap a = a := by
            simp [takeRightCap, List.take_append_drop]
          rw [hsplit]

theorem foldl_saveLogUpdate_eq {α : Type} (records : List α) :
    ∀ init : List α, init.length ≤ MAX_LOG_ENTRIES →
      records.foldl saveLogUpdate init = takeRightCap (init ++ records) := by
  induction records with
  | nil =>
    intro init h
    simp only [List.foldl_nil, List.append_nil, takeRightCap]
    have h0 : init.length - MAX_LOG_ENTRIES = 0 := by omega
    rw [h0, List.drop_zero]
  | cons r rs ih =>
    intro init h
    simp only [List.foldl_cons]
    rw [ih (saveLogUpdate init r) (length_saveLogUpdate _ _),
      saveLogUpdate_eq_takeRightCap, takeRightCap_takeRightCap_append]
    have hassoc : (init ++ [r]) ++ rs = init ++ (r :: rs) := by simp
    rw [hassoc]

theorem saveLogUpdate_concat {α : Type} (l : List α) (e : α) :
    ∃ pre, saveLogUpdate l e = pre ++ [e] := by
  refine ⟨l.drop ((l ++ [e]).length - MAX_LOG_ENTRIES), ?_⟩
  rw [saveLogUpdate_eq_takeRightCap]
  simp only [takeRightCap]
  rw [List.drop_append_of_le_length
    (by simp only [List.length_append, List.length_cons, List.length_nil, MAX_LOG_ENTRIES]; omega)]

/-! ## Claim theorems -/

/-- C2: for every sequence of more than `MAX_LOG_ENTRIES` appended failure
records, the log afterwards holds exactly the most recent 1000 of them in
their original relative order; moreover every single append leaves the log
at length at most 1000, and eviction is always a drop from the front of
the appended sequence (oldest first). -/
theorem c2_rotation_invariant {α : Type} (init records : List α)
    (h : MAX_LOG_ENTRIES < records.length) :
    records.foldl saveLogUpdate init
        = records.drop (records.length - MAX_LOG_ENTRIES) ∧
    (∀ (l : List α) (e : α), (saveLogUpdate l e).length ≤ MAX_LOG_ENTRIES) ∧
    (∀ (l : List α) (e : α), ∃ k, saveLogUpdate l e = (l ++ [e]).drop k) := by
  refine ⟨?_, fun l e => length_saveLogUpdate l e,
    fun l e => ⟨(l ++ [e]).length - MAX_LOG_ENTRIES, by
      rw [saveLogUpdate_eq_takeRightCap]; rfl⟩⟩
  cases records with
  | nil => simp at h
  | cons r rs =>
    simp only [List.foldl_cons]
    rw [foldl_saveLogUpdate_eq rs (saveLogUpdate init r) (length_saveLogUpdate _ _),
      saveLogUpdate_eq_takeRightCap, takeRightCap_takeRightCap_append]
    have hassoc : (init ++ [r]) ++ rs = init ++ (r :: rs) := by simp
    rw [hassoc, takeRightCap_append_right init (r :: rs) (by omega)]
    rfl

/-- C2 witness: 1001 appends to an empty log, evaluated through the
theorem. -/
theorem c2_rotation_invariant_witness :
    MAX_LOG_ENTRIES < (List.replicate 1001 (0 : Nat)).length ∧
    ((List.replicate 1001 (0 : Nat)).foldl saveLogUpdate ([] : List Nat)
        = (List.replicate 1001 (0 : Nat)).drop
            ((List.replicate 1001 (0 : Nat)).length - MAX_LOG_ENTRIES) ∧
      (∀ (l : List Nat) (e : Nat), (saveLogUpdate l e).length ≤ MAX_LOG_ENTRIES) ∧
      (∀ (l : List Nat) (e : Nat), ∃ k, saveLogUpdate l e = (l ++ [e]).drop k)) :=
  ⟨by simp only [MAX_LOG_ENTRIES, List.length_replicate]; omega,
    c2_rotation_invariant [] (List.replicate 1001 0)
      (by simp only [MAX_LOG_ENTRIES, List.length_replicate]; omega)⟩

/-- C4: an error string of length above 5000 is persisted as exactly its
first 5000 characters followed by the fixed marker "... [truncated]";
otherwise it is stored verbatim. -/
theorem c4_truncation (s : String) :
    (MAX_ERROR_LENGTH < s.length →
      truncateString s MAX_ERROR_LENGTH = strTake s 5000 ++ "... [truncated]") ∧
    (s.length ≤ MAX_ERROR_LENGTH → truncateString s MAX_ERROR_LENGTH = s) := by
  constructor <;> intro h
  · unfold truncateString
    rw [if_pos h]
    rfl
  · unfold truncateString
    rw [if_neg (by omega)]

/-- C4 witness: a 5001-character string is cut, a short string is kept
verbatim. -/
theorem c4_truncation_witness :
    (MAX_ERROR_LENGTH < (String.mk (List.replicate 5001 'a')).length ∧
      truncateString ⟨List.replicate 5001 'a'⟩ MAX_ERROR_LENGTH
        = strTake ⟨List.replicate 5001 'a'⟩ 5000 ++ "... [truncated]") ∧
    ("ok".length ≤ MAX_ERROR_LENGTH ∧ truncateString "ok" MAX_ERROR_LENGTH = "ok") := by
  have h1 : MAX_ERROR_LENGTH < (String.mk (List.replicate 5001 'a')).length := by
    show MAX_ERROR_LENGTH < (List.replicate 5001 'a').length
    rw [List.length_replicate]
    simp only [MAX_ERROR_LENGTH]
    omega
  have h2 : "ok".length ≤ MAX_ERROR_LENGTH := by decide
  exact ⟨⟨h1, (c4_truncation _).1 h1⟩, ⟨h2, (c4_truncation _).2 h2⟩⟩

/-- C1 counterexample: the extension.ts resolver (the cited
`getValidatedBuildCommand`) resolves a configured command containing the
forbidden substring "&&" without any error — it performs no deny-list
validation. -/
theorem c1_counterexample :
    getValidatedBuildCommand ⟨PkgJson.absent, false, false, false⟩ "echo a && echo b"
        = Except.ok "echo a && echo b" ∧
    hasDangerous "echo a && echo b" = true := by
  exact ⟨rfl, rfl⟩

/-- C1 (amended): the injection deny-list property holds of the
extension.js variant of the resolver: every successfully resolved command
is non-empty and contains none of ";", "&&", "||", "`", "$("; a
configured command that is non-blank after trimming resolves to its
trimmed form exactly when it is clean, and fails with the invalid-command
error when it contains a forbidden substring.  (The extension.ts variant
performs no such validation; see the counterexample.) -/
theorem c1_injection_rejection (fs : JsWorkspace) (isWindows : Bool) (cfg : String) :
    (∀ cmd, getValidatedBuildCommandJs fs isWindows cfg = .ok cmd →
        hasDangerous cmd = false ∧ cmd ≠ "") ∧
    (jsTrim cfg ≠ "" → hasDangerous (jsTrim cfg) = false →
        getValidatedBuildCommandJs fs isWindows cfg = .ok (jsTrim cfg)) ∧
    (jsTrim cfg ≠ "" → hasDangerous (jsTrim cfg) = true →
        getValidatedBuildCommandJs fs isWindows cfg = .error .invalidCommand) := by
  refine ⟨?_, ?_, ?_⟩
  · intro cmd hcmd
    simp only [getValidatedBuildCommandJs] at hcmd
    split at hcmd
    · exact absurd hcmd (by simp)
    · rename_i b0 hb0
      split at hcmd
      · exact absurd hcmd (by simp)
      · split at hcmd
        · exact absurd hcmd (by simp)
        · rename_i hne hclean
          cases hcmd
          exact ⟨by simpa using hclean, hne⟩
  · intro hne hclean
    simp only [getValidatedBuildCommandJs, if_neg hne]
    rw [if_neg (by simp [hclean])]
  · intro hne hdanger
    simp only [getValidatedBuildCommandJs, if_neg hne]
    rw [if_pos hdanger]

/-- C1 witness: a clean non-blank configured command resolves; a command
with ";" is rejected as invalid. -/
theorem c1_injection_rejection_witness :
    (jsTrim " npm run build " ≠ "" ∧ hasDangerous (jsTrim " npm run build ") = false ∧
      getValidatedBuildCommandJs ⟨true, false, false⟩ false " npm run build "
        = .ok (jsTrim " npm run build ")) ∧
    (jsTrim "echo hi; ls" ≠ "" ∧ hasDangerous (jsTrim "echo hi; ls") = true ∧
      getValidatedBuildCommandJs ⟨true, false, false⟩ false "echo hi; ls"
        = .error .invalidCommand) :=
  ⟨⟨by decide, by decide,
      (c1_injection_rejection ⟨true, false, false⟩ false " npm run build ").2.1
        (by decide) (by decide)⟩,
    ⟨by decide, by decide,
      (c1_injection_rejection ⟨true, false, false⟩ false "echo hi; ls").2.2
        (by decide) (by decide)⟩⟩

/-- C10: every record appended by `saveLog` is the incoming entry enhanced
with the three added metadata fields — `extensionVersion` (defaulting to
"unknown" when the extension lookup yields nothing), `vscodeVersion` and
`platform` — with all documented fields preserved unchanged, and the
enhanced entry is exactly what gets appended. -/
theorem c10_enhanced_metadata (e : LogEntry) (extVer : Option String)
    (vscodeVer platformName : String) (logs : List EnhancedEntry) :
    (enhanceEntry e extVer vscodeVer platformName).toLogEntry = e ∧
    (enhanceEntry e extVer vscodeVer platformName).vscodeVersion = vscodeVer ∧
    (enhanceEntry e extVer vscodeVer platformName).platform = platformName ∧
    (extVer = none →
      (enhanceEntry e extVer vscodeVer platformName).extensionVersion = "unknown") ∧
    (∀ v, extVer = some v → v ≠ "" →
      (enhanceEntry e extVer vscodeVer platformName).extensionVersion = v) ∧
    ∃ pre, saveLogUpdate logs (enhanceEntry e extVer vscodeVer platformName)
        = pre ++ [enhanceEntry e extVer vscodeVer platformName] := by
  refine ⟨rfl, rfl, rfl, ?_, ?_, saveLogUpdate_concat _ _⟩
  · intro h
    subst h
    rfl
  · intro v hv hne
    subst hv
    simp [enhanceEntry, orFalsy, hne]

/-- C10 witness: a concrete entry with no extension version gets
"unknown", one with a version keeps it. -/
theorem c10_enhanced_metadata_witness :
    ((none : Option String) = none ∧
      (enhanceEntry sampleLogEntry none "1.96.0" "linux").extensionVersion = "unknown") ∧
    ((some "0.0.3" : Option String) = some "0.0.3" ∧ "0.0.3" ≠ "" ∧
      (enhanceEntry sampleLogEntry (some "0.0.3") "1.96.0" "linux").extensionVersion
        = "0.0.3") :=
  ⟨⟨rfl, (c10_enhanced_metadata sampleLogEntry none "1.96.0" "linux" []).2.2.2.1 rfl⟩,
    ⟨rfl, by decide,
      (c10_enhanced_metadata sampleLogEntry (some "0.0.3") "1.96.0" "linux" []).2.2.2.2.1
        "0.0.3" rfl (by decide)⟩⟩

/-- C3 counterexample: `clearLogs` writes the empty array directly to the
canonical path — no temporary file, no rename — so a crash in the middle
of that write can leave the canonical log file holding "[", which is
neither the prior complete content nor the complete new content. -/
theorem c3_counterexample :
    CrashReachable ⟨some "[old]", none⟩ clearLogsOps ⟨some "[", none⟩ ∧
    (⟨some "[", none⟩ : LogFs).log ≠ (⟨some "[old]", none⟩ : LogFs).log ∧
    (⟨some "[", none⟩ : LogFs).log ≠ some "[]" := by
  refine ⟨Or.inr ⟨0, .canonical, "[]", 1, rfl, rfl⟩, by decide, by decide⟩

/-- C3 (amended): the append path (`saveLog`) does write the serialized
sequence to the temporary path and then rename it over the canonical path,
so no crash point of an append leaves the canonical file with anything
other than its prior complete content or the complete new content.  (The
clear path does not use this sequence; see the counterexample.) -/
theorem c3_append_atomic (init : LogFs) (content : String) (fs : LogFs)
    (h : CrashReachable init (saveLogOps content) fs) :
    fs.log = init.log ∨ fs.log = some content := by
  rcases h with ⟨n, rfl⟩ | ⟨n, p, c, k, hop, rfl⟩
  · match n with
    | 0 => exact Or.inl rfl
    | 1 => exact Or.inl rfl
    | (m + 2) =>
      simp only [saveLogOps, List.take_succ_cons, List.take_nil]
      exact Or.inr rfl
  · match n with
    | 0 =>
      simp only [saveLogOps, List.getElem?_cons_zero, Option.some.injEq] at hop
      obtain ⟨hp, hc⟩ := FsOp.write.inj hop.symm
      subst hp
      exact Or.inl rfl
    | 1 => simp [saveLogOps] at hop
    | (m + 2) => simp [saveLogOps] at hop

/-- C3 witness: running the full append sequence from a concrete prior
state yields the complete new content. -/
theorem c3_append_atomic_witness :
    CrashReachable ⟨some "[old]", none⟩ (saveLogOps "[new]") ⟨some "[new]", none⟩ ∧
    ((⟨some "[new]", none⟩ : LogFs).log = (⟨some "[old]", none⟩ : LogFs).log ∨
      (⟨some "[new]", none⟩ : LogFs).log = some "[new]") :=
  ⟨Or.inl ⟨2, rfl⟩,
    c3_append_atomic ⟨some "[old]", none⟩ "[new]" ⟨some "[new]", none⟩ (Or.inl ⟨2, rfl⟩)⟩

/-- C5: exit code 0 yields a success and no persisted entry; any nonzero
exit code yields a failure whose persisted record carries exactly that
code; a spawn error becomes a distinct diagnostic and never yields a
persisted record. -/
theorem c5_outcome_classification (ctx : RunContext) :
    (handleProcessEvent (.exited (some 0)) ctx = .success ctx.duration ∧
      persistedEntry (handleProcessEvent (.exited (some 0)) ctx) = none) ∧
    (∀ k : Int, k ≠ 0 →
      handleProcessEvent (.exited (some k)) ctx
          = .failed (mkFailureLogEntry ctx (some k)) ∧
      persistedEntry (handleProcessEvent (.exited (some k)) ctx)
          = some (mkFailureLogEntry ctx (some k)) ∧
      (mkFailureLogEntry ctx (some k)).exitCode = some k) ∧
    (∀ msg, persistedEntry (handleProcessEvent (.errored msg) ctx) = none ∧
      ∃ m, handleProcessEvent (.errored msg) ctx = .spawnError m) := by
  refine ⟨⟨rfl, rfl⟩, ?_, ?_⟩
  · intro k hk
    have hcond : ¬ ((some k : Option Int) = some 0) := by simp [hk]
    simp [handleProcessEvent, persistedEntry, hcond]
    rfl
  · intro msg
    exact ⟨rfl, ⟨_, rfl⟩⟩

/-- C5 witness: a concrete run with exit code 2 is persisted with exit
code 2. -/
theorem c5_outcome_classification_witness :
    (2 : Int) ≠ 0 ∧
    (handleProcessEvent (.exited (some 2)) sampleRunContext
        = .failed (mkFailureLogEntry sampleRunContext (some 2)) ∧
      persistedEntry (handleProcessEvent (.exited (some 2)) sampleRunContext)
        = some (mkFailureLogEntry sampleRunContext (some 2)) ∧
      (mkFailureLogEntry sampleRunContext (some 2)).exitCode = some 2) :=
  ⟨by decide, (c5_outcome_classification sampleRunContext).2.1 2 (by decide)⟩

/-- C6: when the branch query and/or the developer query fails, the built
record carries the sentinels "unknown" and/or "Unknown Developer", and the
enhanced record is appended to the log regardless — context-collection
failures never prevent persisting the build failure. -/
theorem c6_fallback_sentinels (logs : List EnhancedEntry)
    (branchExec devExec : Except String String) (env : EnvVars)
    (ctx : RunContext) (code : Option Int) (extVer : Option String)
    (vscodeVer platformName : String) :
    (∀ e, branchExec = .error e →
      (mkFailureLogEntry (enrichContext ctx branchExec devExec env) code).branch
        = "unknown") ∧
    (∀ e, devExec = .error e →
      (mkFailureLogEntry (enrichContext ctx branchExec devExec env) code).developer
        = "Unknown Developer") ∧
    (∃ pre, runFailureLogging logs branchExec devExec env ctx code extVer
          vscodeVer platformName
        = pre ++ [enhanceEntry
            (mkFailureLogEntry (enrichContext ctx branchExec devExec env) code)
            extVer vscodeVer platformName]) := by
  refine ⟨?_, ?_, ?_⟩
  · intro e he
    subst he
    rfl
  · intro e he
    subst he
    rfl
  · exact saveLogUpdate_concat _ _

/-- C6 witness: with both queries failing, the record has both sentinels
and is appended. -/
theorem c6_fallback_sentinels_witness :
    ((Except.error "fatal: not a git repository" : Except String String)
        = .error "fatal: not a git repository" ∧
      (mkFailureLogEntry (enrichContext sampleRunContext
          (.error "fatal: not a git repository") (.error "spawn git ENOENT")
          sampleEnv) (some 1)).branch = "unknown") ∧
    ((Except.error "spawn git ENOENT" : Except String String)
        = .error "spawn git ENOENT" ∧
      (mkFailureLogEntry (enrichContext sampleRunContext
          (.error "fatal: not a git repository") (.error "spawn git ENOENT")
          sampleEnv) (some 1)).developer = "Unknown Developer") ∧
    (∃ pre, runFailureLogging [] (.error "fatal: not a git repository")
          (.error "spawn git ENOENT") sampleEnv sampleRunContext (some 1)
          none "1.96.0" "linux"
        = pre ++ [enhanceEntry (mkFailureLogEntry (enrichContext sampleRunContext
            (.error "fatal: not a git repository") (.error "spawn git ENOENT")
            sampleEnv) (some 1)) none "1.96.0" "linux"]) :=
  ⟨⟨rfl, (c6_fallback_sentinels [] (.error "fatal: not a git repository")
      (.error "spawn git ENOENT") sampleEnv sampleRunContext (some 1)
      none "1.96.0" "linux").1 "fatal: not a git repository" rfl⟩,
    ⟨rfl, (c6_fallback_sentinels [] (.error "fatal: not a git repository")
      (.error "spawn git ENOENT") sampleEnv sampleRunContext (some 1)
      none "1.96.0" "linux").2.1 "spawn git ENOENT" rfl⟩,
    (c6_fallback_sentinels [] (.error "fatal: not a git repository")
      (.error "spawn git ENOENT") sampleEnv sampleRunContext (some 1)
      none "1.96.0" "linux").2.2⟩

/-- C7 counterexample: the dashboard read path renders an error view —
not the empty sequence — when `JSON.parse` throws on the file content; the
append read phase does yield the empty sequence on the same input. -/
theorem c7_counterexample :
    @loadAndDisplayLogs Unit (some "corrupt") (fun _ => .error "Unexpected token")
        = .errorView "Failed to load logs" "Unexpected token" ∧
    @saveLogReadPhase Unit (some "corrupt") (fun _ => .error "Unexpected token") = [] ∧
    DashboardView.errorView "Failed to load logs" "Unexpected token"
        ≠ @DashboardView.dashboard Unit [] := by
  refine ⟨rfl, rfl, ?_⟩
  intro h
  cases h

/-- C7 (amended): both readers never throw (they are total); the append
read phase yields the empty sequence for a missing file, an empty file, a
parse failure and non-array content; the dashboard read yields the empty
sequence for a missing file, an empty file and non-array content, but for
unparseable content its catch handler renders an error view instead of the
empty sequence. -/
theorem c7_read_never_throws {α : Type}
    (parse : String → Except String (JsValue α)) (data : String) :
    saveLogReadPhase none parse = [] ∧
    saveLogReadPhase (some "") parse = [] ∧
    (∀ e, parse data = .error e → saveLogReadPhase (some data) parse = []) ∧
    (parse data = .ok .nonArray → saveLogReadPhase (some data) parse = []) ∧
    (loadAndDisplayLogs none parse = .dashboard [] ∧
      loadAndDisplayLogs (some "") parse = .dashboard [] ∧
      (parse data = .ok .nonArray → data ≠ "" →
        loadAndDisplayLogs (some data) parse = .dashboard [])) ∧
    (∀ e, data ≠ "" → parse data = .error e →
      loadAndDisplayLogs (some data) parse = .errorView "Failed to load logs" e) := by
  refine ⟨rfl, rfl, ?_, ?_, ⟨rfl, rfl, ?_⟩, ?_⟩
  · intro e he
    by_cases hd : data = ""
    · subst hd
      rfl
    · simp [saveLogReadPhase, hd, he]
  · intro hv
    by_cases hd : data = ""
    · subst hd
      rfl
    · simp [saveLogReadPhase, hd, hv]
  · intro hv hd
    simp [loadAndDisplayLogs, hd, hv]
  · intro e hd he
    simp [loadAndDisplayLogs, hd, he]

/-- C7 witness: the read-phase and dashboard behaviours at a concrete
corrupt file. -/
theorem c7_read_never_throws_witness :
    (@saveLogReadPhase Unit (some "bad json") (fun _ => .error "boom") = []) ∧
    ("bad json" ≠ "" ∧
      @loadAndDisplayLogs Unit (some "bad json") (fun _ => .error "boom")
        = .errorView "Failed to load logs" "boom") :=
  ⟨(c7_read_never_throws (fun _ => .error "boom") "bad json").2.2.1 "boom" rfl,
    ⟨by decide,
      (c7_read_never_throws (fun _ => .error "boom") "bad json").2.2.2.2.2
        "boom" (by decide) rfl⟩⟩

/-- C8: debouncing affects only the live display.  For every interleaving
of chunk arrivals and debounce-timer fires, the accumulated buffer equals
the concatenation of all received chunks in arrival order — timer events
never remove anything from it — and the text persisted on a failure is the
truncation of that full concatenation's trim. -/
theorem c8_debounce_no_loss (events : List OutEvent) :
    (events.foldl handleOutput initialSupervisorState).buildOutput
        = concatChunks (chunkTexts events) ∧
    truncateString
        (jsTrim (events.foldl handleOutput initialSupervisorState).buildOutput)
        MAX_ERROR_LENGTH
      = truncateString (jsTrim (concatChunks (chunkTexts events))) MAX_ERROR_LENGTH := by
  have key : ∀ st : SupervisorState,
      (events.foldl handleOutput st).buildOutput
        = st.buildOutput ++ concatChunks (chunkTexts events) := by
    induction events with
    | nil =>
      intro st
      simp only [List.foldl_nil, chunkTexts, List.filterMap_nil, concatChunks]
      rw [String.append_empty]
    | cons ev rest ih =>
      intro st
      cases ev with
      | chunk s =>
        simp only [List.foldl_cons]
        rw [ih (handleOutput st (.chunk s))]
        have hb : (handleOutput st (.chunk s)).buildOutput = st.buildOutput ++ s := rfl
        rw [hb]
        have hc : chunkTexts (.chunk s :: rest) = s :: chunkTexts rest := by
          simp [chunkTexts]
        rw [hc]
        show st.buildOutput ++ s ++ concatChunks (chunkTexts rest)
            = st.buildOutput ++ (s ++ concatChunks (chunkTexts rest))
        rw [String.append_assoc]
      | timerFire =>
        simp only [List.foldl_cons]
        rw [ih (handleOutput st .timerFire)]
        have hb : (handleOutput st .timerFire).buildOutput = st.buildOutput := by
          simp only [handleOutput]
          cases st.outputTimer <;> rfl
        rw [hb]
        have hc : chunkTexts (.timerFire :: rest) = chunkTexts rest := by
          simp [chunkTexts]
        rw [hc]
  have h1 := key initialSupervisorState
  have h0 : initialSupervisorState.buildOutput = "" := rfl
  rw [h0, String.empty_append] at h1
  exact ⟨h1, by rw [h1]⟩

/-- C9 counterexample: when the git identity query rejects, the sentinel
is returned even though the highest-priority environment variable (USER)
is set and non-empty — the environment fallback is skipped, contradicting
"only if all of those are empty does it return Unknown Developer". -/
theorem c9_counterexample :
    getDeveloperName (.error "git failed") ⟨some "alice", none, none, none⟩
        = "Unknown Developer" ∧
    (⟨some "alice", none, none, none⟩ : EnvVars).user = some "alice" ∧
    "alice" ≠ "" := by
  refine ⟨rfl, rfl, ?_⟩
  decide

/-- C9 (amended): the developer resolution order is: git identity first;
if the query succeeds with a non-blank name, its trim is returned; if it
succeeds blank, the environment variables USER, USERNAME, LOGNAME,
COMPUTERNAME are consulted in priority order and the sentinel is returned
only when all of them are unset or empty; if the query fails, the catch
handler returns the sentinel directly without consulting the environment.
The function is total (never throws). -/
theorem c9_developer_resolution (execRes : Except String String) (env : EnvVars) :
    (∀ e, execRes = .error e → getDeveloperName execRes env = "Unknown Developer") ∧
    (∀ s, execRes = .ok s → jsTrim s ≠ "" →
      getDeveloperName execRes env = jsTrim s) ∧
    (∀ s, execRes = .ok s → jsTrim s = "" →
      getDeveloperName execRes env
        = orFalsy env.user (orFalsy env.username (orFalsy env.logname
            (orFalsy env.computername "Unknown Developer")))) ∧
    (∀ s, execRes = .ok s → jsTrim s = "" →
      (env.user = none ∨ env.user = some "") →
      (env.username = none ∨ env.username = some "") →
      (env.logname = none ∨ env.logname = some "") →
      (env.computername = none ∨ env.computername = some "") →
      getDeveloperName execRes env = "Unknown Developer") := by
  refine ⟨?_, ?_, ?_, ?_⟩
  · intro e he
    subst he
    rfl
  · intro s hs hne
    subst hs
    simp [getDeveloperName, hne]
  · intro s hs hblank
    subst hs
    simp [getDeveloperName, hblank]
  · intro s hs hblank h1 h2 h3 h4
    subst hs
    simp only [getDeveloperName, hblank]
    rcases h1 with h1 | h1 <;> rcases h2 with h2 | h2 <;>
      rcases h3 with h3 | h3 <;> rcases h4 with h4 | h4 <;>
      simp [orFalsy, h1, h2, h3, h4]

/-- C9 witness: a failing query, a non-blank git name, and a blank git
name with an all-empty environment, each evaluated through the theorem. -/
theorem c9_developer_resolution_witness :
    getDeveloperName (.error "x") ⟨none, none, none, none⟩ = "Unknown Developer" ∧
    (jsTrim " bob " ≠ "" ∧
      getDeveloperName (.ok " bob ") ⟨none, none, none, none⟩ = jsTrim " bob ") ∧
    getDeveloperName (.ok "  ") ⟨some "", none, none, some ""⟩ = "Unknown Developer" :=
  ⟨(c9_developer_resolution (.error "x") ⟨none, none, none, none⟩).1 "x" rfl,
    ⟨by decide,
      (c9_developer_resolution (.ok " bob ") ⟨none, none, none, none⟩).2.1
        " bob " rfl (by decide)⟩,
    (c9_developer_resolution (.ok "  ") ⟨some "", none, none, some ""⟩).2.2.2
      "  " rfl (by decide) (Or.inr rfl) (Or.inl rfl) (Or.inl rfl) (Or.inr rfl)⟩

end BuildLogger
